import Mathlib

/-!
Verification of the spaced-repetition quiz and pronunciation scoring engine
of `voice_livekit_agent/french_voice_tutor_plus.py`.

Shallow embedding conventions:
* Python `str` is Lean `String`; character-level work happens on `List Char`.
* `unicodedata.normalize("NFD", ·)` followed by dropping combining marks
  (category Mn) is modelled by `stripAccentsChar`, a character-level table
  for the Latin-1 repertoire used by the tutor (each precomposed accented
  Latin-1 letter decomposes to its ASCII base letter plus a combining mark,
  which is then dropped; standalone combining marks are dropped).
* Python floats are modelled exactly as rationals (`ℚ`); all float values
  occurring in the program are ratios of small integers and literal
  constants, for which IEEE double comparison agrees with exact rational
  comparison.
* Timestamps (`datetime` + ISO strings) are modelled as seconds since the
  epoch (`Nat`); `timedelta(days=d)` is `86400 * d`.  A stored `next_due`
  string is modelled as `Option Nat`: `some t` when the string parses to
  time `t`, `none` when it is absent or malformed (both paths in the code
  fall back to the epoch, `datetime(1970, 1, 1)`, i.e. `0`).
* `datetime.now()` is passed explicitly as a `now : Nat` parameter (the
  clock is an injected collaborator).
-/

/-- Python whitespace (`str.strip()` with no arguments), ASCII repertoire. -/
def isPySpace (c : Char) : Bool :=
  c.toNat = 32 || c.toNat = 9 || c.toNat = 10 || c.toNat = 11 ||
  c.toNat = 12 || c.toNat = 13

/-- Characters matched by the word regex `[A-Za-zÀ-ÖØ-öø-ÿ'-]` of
`_WORD_RE` (`french_voice_tutor_plus.py:111`): ASCII letters, the Latin-1
letter ranges `U+00C0-U+00D6`, `U+00D8-U+00F6`, `U+00F8-U+00FF`, the ASCII
apostrophe (39) and the hyphen (45). -/
def isWordChar (c : Char) : Bool :=
  (65 ≤ c.toNat && c.toNat ≤ 90) || (97 ≤ c.toNat && c.toNat ≤ 122) ||
  (192 ≤ c.toNat && c.toNat ≤ 214) || (216 ≤ c.toNat && c.toNat ≤ 246) ||
  (248 ≤ c.toNat && c.toNat ≤ 255) || c.toNat = 39 || c.toNat = 45

/-- Python `str.lower()` restricted to the ASCII and Latin-1 letters the
tutor manipulates: `A`-`Z` and the accented uppercase Latin-1 letters map
down by 32, everything else is unchanged. -/
def toLowerPy (c : Char) : Char :=
  if 65 ≤ c.toNat && c.toNat ≤ 90 then Char.ofNat (c.toNat + 32)
  else if (192 ≤ c.toNat && c.toNat ≤ 214) || (216 ≤ c.toNat && c.toNat ≤ 222) then
    Char.ofNat (c.toNat + 32)
  else c

/-- Python `str.upper()` restricted to the same repertoire (`ÿ`, U+00FF,
maps to `Ÿ`, U+0178, as in Python). -/
def toUpperPy (c : Char) : Char :=
  if 97 ≤ c.toNat && c.toNat ≤ 122 then Char.ofNat (c.toNat - 32)
  else if (224 ≤ c.toNat && c.toNat ≤ 246) || (248 ≤ c.toNat && c.toNat ≤ 254) then
    Char.ofNat (c.toNat - 32)
  else if c.toNat = 255 then Char.ofNat 376
  else c

/-- Model of `_strip_accents` at the character level: NFD decomposition
followed by removal of combining marks (category Mn), for the Latin-1
repertoire.  Precomposed accented Latin-1 letters decompose to their ASCII
base letter (the combining mark being dropped); standalone combining marks
(U+0300-U+036F) are dropped; every other character is unchanged.
Latin-1 letters without a canonical decomposition (`Æ Ð Ø Þ ß æ ð ø þ`)
are unchanged, as under NFD. -/
def stripAccentsChar (c : Char) : List Char :=
  let v := c.toNat
  if 768 ≤ v && v ≤ 879 then []
  else if (192 ≤ v && v ≤ 197) then [Char.ofNat 65]
  else if v = 199 then [Char.ofNat 67]
  else if (200 ≤ v && v ≤ 203) then [Char.ofNat 69]
  else if (204 ≤ v && v ≤ 207) then [Char.ofNat 73]
  else if v = 209 then [Char.ofNat 78]
  else if (210 ≤ v && v ≤ 214) then [Char.ofNat 79]
  else if (217 ≤ v && v ≤ 220) then [Char.ofNat 85]
  else if v = 221 then [Char.ofNat 89]
  else if (224 ≤ v && v ≤ 229) then [Char.ofNat 97]
  else if v = 231 then [Char.ofNat 99]
  else if (232 ≤ v && v ≤ 235) then [Char.ofNat 101]
  else if (236 ≤ v && v ≤ 239) then [Char.ofNat 105]
  else if v = 241 then [Char.ofNat 110]
  else if (242 ≤ v && v ≤ 246) then [Char.ofNat 111]
  else if (249 ≤ v && v ≤ 252) then [Char.ofNat 117]
  else if v = 253 || v = 255 then [Char.ofNat 121]
  else [c]

/-- `_strip_accents` (`french_voice_tutor_plus.py:114-118`) on a character
list. -/
def stripAccentsL (l : List Char) : List Char :=
  l.flatMap stripAccentsChar

/-- `.lower()` on a character list. -/
def lowerL (l : List Char) : List Char :=
  l.map toLowerPy

/-- `.strip()` (trim whitespace at both ends) on a character list. -/
def stripWsL (l : List Char) : List Char :=
  (((l.dropWhile isPySpace).reverse.dropWhile isPySpace)).reverse

/-- Worker for `_tokenize`: scans the character list, accumulating the
current run of word characters in `acc` (reversed); a maximal run is
emitted lowercased, mirroring `m.group(0).lower()` applied to each match
of `_WORD_RE.finditer` (`french_voice_tutor_plus.py:121-122`). -/
def tokenizeAux : List Char → List Char → List (List Char)
  | [], acc => if acc.isEmpty then [] else [(acc.reverse).map toLowerPy]
  | c :: cs, acc =>
    if isWordChar c then tokenizeAux cs (c :: acc)
    else if acc.isEmpty then tokenizeAux cs []
    else ((acc.reverse).map toLowerPy) :: tokenizeAux cs []

/-- `_tokenize` (`french_voice_tutor_plus.py:121-122`): the maximal runs of
word characters, each lowercased, in left-to-right order. -/
def tokenizeL (l : List Char) : List (List Char) :=
  tokenizeAux l []

/-!
## `_levenshtein` (`french_voice_tutor_plus.py:125-139`)

The Python function keeps a single rolling row `dp` (initially
`list(range(len(b)+1))`) and updates it in place.  The in-place state is
made explicit: `pyInner` is the inner `for j, y in enumerate(b, 1)` loop
(`prev` and `d` are the variables `prev` and the freshly written
`dp[j-1]`; the list pairs each `y` with the not-yet-overwritten old value
`dp[j]`), `pyRow` performs `prev = dp[0]; dp[0] = i` and runs the inner
loop, and `pyLoop` is the outer `for i, x in enumerate(a, 1)` loop.
-/

/-- Inner loop of `_levenshtein`: one cell update per step,
`dp[j] = min(dp[j] + 1, dp[j-1] + 1, prev + (0 if x == y else 1))`. -/
def pyInner {α : Type} [DecidableEq α] (x : α) : Nat → Nat → List (α × Nat) → List Nat
  | _, _, [] => []
  | prev, d, (y, o) :: rest =>
    let v := min (min (o + 1) (d + 1)) (prev + (if x = y then 0 else 1))
    v :: pyInner x o v rest

/-- One outer iteration of `_levenshtein`: save `prev = dp[0]`, write
`dp[0] = i`, then run the inner loop over `b` paired with the old row
tail. -/
def pyRow {α : Type} [DecidableEq α] (x : α) (i : Nat) (b : List α) (dp : List Nat) :
    List Nat :=
  match dp with
  | [] => []
  | o :: os => i :: pyInner x o i (b.zip os)

/-- The outer loop of `_levenshtein` over the elements of `a`, with the
1-based index `i`. -/
def pyLoop {α : Type} [DecidableEq α] (b : List α) : List α → Nat → List Nat → List Nat
  | [], _, dp => dp
  | x :: xs, i, dp => pyLoop b xs (i + 1) (pyRow x i b dp)

/-- `_levenshtein(a, b)`: run the loop from `dp = list(range(len(b)+1))`
and return `dp[-1]`. -/
def pyLev {α : Type} [DecidableEq α] (a b : List α) : Nat :=
  (pyLoop b a 1 (List.range (b.length + 1))).getLastD 0

/-!
## The classic Levenshtein edit distance

`wfDist a b i j` is the Wagner-Fischer table `D(i, j)`: the edit distance
between the length-`i` prefix of `a` and the length-`j` prefix of `b`,
defined by the textbook recurrence with unit costs
(`D(0, j) = j`, `D(i, 0) = i`,
`D(i+1, j+1) = min(D(i, j+1) + 1, D(i+1, j) + 1, D(i, j) + [a_i ≠ b_j])`).
`levWF a b = D(|a|, |b|)` is the classic Levenshtein distance. -/
def wfStep {α : Type} [DecidableEq α] (a b : List α) (i : Nat) (prevRow : Nat → Nat) :
    Nat → Nat
  | 0 => i + 1
  | j + 1 =>
    min (min (prevRow (j + 1) + 1) (wfStep a b i prevRow j + 1))
      (prevRow j + (if a.get? i = b.get? j then 0 else 1))

/-- Row `i` of the Wagner-Fischer table, as a function of the column. -/
def wfDist {α : Type} [DecidableEq α] (a b : List α) : Nat → Nat → Nat
  | 0 => fun j => j
  | i + 1 => wfStep a b i (wfDist a b i)

/-- The classic Levenshtein edit distance with unit costs between `a` and
`b`: the corner `D(|a|, |b|)` of the Wagner-Fischer table. -/
def levWF {α : Type} [DecidableEq α] (a b : List α) : Nat :=
  wfDist a b a.length b.length

theorem wfDist_zero_left {α : Type} [DecidableEq α] (a b : List α) (j : Nat) :
    wfDist a b 0 j = j := rfl

theorem wfDist_zero_right {α : Type} [DecidableEq α] (a b : List α) (i : Nat) :
    wfDist a b i 0 = i := by
  cases i <;> rfl

theorem wfDist_succ_succ {α : Type} [DecidableEq α] (a b : List α) (i j : Nat) :
    wfDist a b (i + 1) (j + 1) =
      min (min (wfDist a b i (j + 1) + 1) (wfDist a b (i + 1) j + 1))
        (wfDist a b i j + (if a.get? i = b.get? j then 0 else 1)) := rfl


/-!
## The rolling-row program computes the Wagner-Fischer table

Invariant: after the outer loop has consumed the first `i` elements of
`a`, the row `dp` equals `[D(i, 0), …, D(i, |b|)]`.
-/

theorem getLastD_map_range' (f : Nat → Nat) :
    ∀ (n s d : Nat), ((List.range' s (n + 1)).map f).getLastD d = f (s + n) := by
  intro n
  induction n with
  | zero => intro s d; simp [List.range']
  | succ n ih =>
    intro s d
    rw [List.range'_succ s (n + 1) 1, List.map_cons, List.getLastD_cons]
    rw [ih (s + 1) (f s)]
    congr 1
    omega

theorem pyInner_spec {α : Type} [DecidableEq α] (a b : List α) (i0 : Nat) (x : α)
    (hx : a.get? i0 = some x) :
    ∀ (bs : List α) (j : Nat), b.drop j = bs →
      pyInner x (wfDist a b i0 j) (wfDist a b (i0 + 1) j)
          (bs.zip ((List.range' (j + 1) bs.length).map (wfDist a b i0)))
        = (List.range' (j + 1) bs.length).map (wfDist a b (i0 + 1)) := by
  intro bs
  induction bs with
  | nil => intro j _; simp [pyInner]
  | cons y bs' ih =>
    intro j hdrop
    have hyj : b.get? j = some y := by
      rw [List.get?_eq_getElem?]
      have h0 : (b.drop j)[0]? = some y := by rw [hdrop]; simp
      rw [List.getElem?_drop] at h0
      simpa using h0
    have hdrop' : b.drop (j + 1) = bs' := by
      have : b.drop (j + 1) = (b.drop j).drop 1 := by
        rw [List.drop_drop]
      rw [this, hdrop]
      rfl
    have hv : min (min (wfDist a b i0 (j + 1) + 1) (wfDist a b (i0 + 1) j + 1))
        (wfDist a b i0 j + (if x = y then 0 else 1)) = wfDist a b (i0 + 1) (j + 1) := by
      rw [wfDist_succ_succ, hx, hyj]
      simp only [Option.some.injEq]
    rw [List.length_cons, List.range'_succ (j + 1) bs'.length 1, List.map_cons,
      List.zip_cons_cons, pyInner]
    rw [hv]
    have htail := ih (j + 1) hdrop'
    simp only [show j + 1 + 1 = j + 2 from rfl] at htail ⊢
    rw [htail, List.map_cons]

theorem pyRow_spec {α : Type} [DecidableEq α] (a b : List α) (i0 : Nat) (x : α)
    (hx : a.get? i0 = some x) :
    pyRow x (i0 + 1) b ((List.range' 0 (b.length + 1)).map (wfDist a b i0))
      = (List.range' 0 (b.length + 1)).map (wfDist a b (i0 + 1)) := by
  have h0 : List.range' 0 (b.length + 1) = 0 :: List.range' 1 b.length :=
    List.range'_succ 0 b.length 1
  rw [h0, List.map_cons, List.map_cons, pyRow]
  have hin := pyInner_spec a b i0 x hx b 0 rfl
  simp only [List.range'] at hin ⊢
  rw [wfDist_zero_right, wfDist_zero_right] at hin ⊢
  rw [hin]

theorem pyLoop_spec {α : Type} [DecidableEq α] (a b : List α) :
    ∀ (rem : List α) (k : Nat), a.drop k = rem → k ≤ a.length →
      pyLoop b rem (k + 1) ((List.range' 0 (b.length + 1)).map (wfDist a b k))
        = (List.range' 0 (b.length + 1)).map (wfDist a b a.length) := by
  intro rem
  induction rem with
  | nil =>
    intro k hdrop hk
    have hlen : a.length ≤ k := List.drop_eq_nil_iff.mp hdrop
    have : k = a.length := by omega
    rw [this, pyLoop]
  | cons x xs ih =>
    intro k hdrop hk
    have hx : a.get? k = some x := by
      rw [List.get?_eq_getElem?]
      have h0 : (a.drop k)[0]? = some x := by rw [hdrop]; simp
      rw [List.getElem?_drop] at h0
      simpa using h0
    have hklt : k < a.length := by
      by_contra h
      have : a.drop k = [] := List.drop_eq_nil_iff.mpr (by omega)
      rw [this] at hdrop
      exact List.noConfusion hdrop
    have hdrop' : a.drop (k + 1) = xs := by
      have : a.drop (k + 1) = (a.drop k).drop 1 := by rw [List.drop_drop]
      rw [this, hdrop]
      rfl
    rw [pyLoop, pyRow_spec a b k x hx]
    exact ih (k + 1) hdrop' hklt

theorem pyLev_eq_levWF {α : Type} [DecidableEq α] (a b : List α) :
    pyLev a b = levWF a b := by
  unfold pyLev levWF
  have h0 : List.range (b.length + 1) = (List.range' 0 (b.length + 1)).map (wfDist a b 0) := by
    rw [List.range_eq_range', show wfDist a b 0 = id from rfl, List.map_id]
  rw [h0, pyLoop_spec a b a 0 rfl (by omega)]
  rw [getLastD_map_range' (wfDist a b a.length) b.length 0 0]
  congr 1
  omega

/-!
## The distance is zero exactly on equal lists
-/

theorem append_singleton_inj {α : Type} (xs ys : List α) (u v : α) :
    xs ++ [u] = ys ++ [v] ↔ xs = ys ∧ u = v := by
  constructor
  · intro h
    have hl : xs.length = ys.length := by
      have := congrArg List.length h
      simp at this
      omega
    obtain ⟨h1, h2⟩ := List.append_inj h hl
    simp at h2
    exact ⟨h1, h2⟩
  · rintro ⟨rfl, rfl⟩
    rfl

theorem wfDist_eq_zero_iff {α : Type} [DecidableEq α] (a b : List α) :
    ∀ i j, i ≤ a.length → j ≤ b.length → (wfDist a b i j = 0 ↔ a.take i = b.take j) := by
  intro i
  induction i with
  | zero =>
    intro j _ hj
    rw [wfDist_zero_left]
    constructor
    · rintro rfl
      rfl
    · intro h
      have := congrArg List.length h
      simp [List.length_take] at this
      omega
  | succ i ih =>
    intro j hi hj
    cases j with
    | zero =>
      rw [wfDist_zero_right]
      constructor
      · intro h
        exact absurd h (Nat.succ_ne_zero i)
      · intro h
        have hlen : (a.take (i + 1)).length = (b.take 0).length := congrArg List.length h
        rw [List.length_take, List.length_take] at hlen
        omega
    | succ j =>
      rw [wfDist_succ_succ]
      have hilt : i < a.length := by omega
      have hjlt : j < b.length := by omega
      obtain ⟨u, hu⟩ : ∃ u, a.get? i = some u := ⟨a.get ⟨i, hilt⟩, List.get?_eq_get hilt⟩
      obtain ⟨v, hv⟩ : ∃ v, b.get? j = some v := ⟨b.get ⟨j, hjlt⟩, List.get?_eq_get hjlt⟩
    
      have htakea : a.take (i + 1) = a.take i ++ [u] := by
        rw [List.take_succ]
        rw [List.get?_eq_getElem?] at hu
        rw [hu]
        rfl
      have htakeb : b.take (j + 1) = b.take j ++ [v] := by
        rw [List.take_succ]
        rw [List.get?_eq_getElem?] at hv
        rw [hv]
        rfl
      rw [hu, hv, htakea, htakeb, append_singleton_inj]
      rw [← ih j (by omega) (by omega)]
      by_cases huv : u = v
      · simp [huv, Nat.min_eq_zero_iff, Nat.add_eq_zero]
      · simp [huv, Nat.min_eq_zero_iff, Nat.add_eq_zero]

theorem levWF_eq_zero_iff {α : Type} [DecidableEq α] (a b : List α) :
    levWF a b = 0 ↔ a = b := by
  unfold levWF
  rw [wfDist_eq_zero_iff a b a.length b.length (by omega) (by omega)]
  rw [List.take_length, List.take_length]

theorem pyLev_eq_zero_iff {α : Type} [DecidableEq α] (a b : List α) :
    pyLev a b = 0 ↔ a = b := by
  rw [pyLev_eq_levWF, levWF_eq_zero_iff]

/-!
## `_wer` (`french_voice_tutor_plus.py:142-147`) and the pronunciation
scoring core of `check_pronunciation` (`french_voice_tutor_plus.py:519-553`)
-/

/-- The token sequence `_tokenize(_strip_accents(s))` used by `_wer` for
both the reference and the hypothesis. -/
def normTokensS (s : String) : List (List Char) :=
  tokenizeL (stripAccentsL s.data)

/-- `_wer(ref, hyp)`: `0.0` when the reference tokenizes to nothing,
otherwise the token-level distance divided by the reference token count. -/
def werS (ref hyp : String) : ℚ :=
  if (normTokensS ref).isEmpty then 0
  else (pyLev (normTokensS ref) (normTokensS hyp) : ℚ) / ((normTokensS ref).length : ℚ)

/-- The four feedback strings of `check_pronunciation`. -/
def excellentMsg : String := "Excellent — très clair !"

def goodMsg : String := "Bien — compréhensible avec quelques petites erreurs."

def needsWorkMsg : String := "Correct — retravaillons l’articulation."

def hardMsg : String := "Difficile à comprendre — on va le décomposer."

/-- The tier chain of `check_pronunciation`
(`french_voice_tutor_plus.py:529-536`): first matching threshold wins. -/
def pronLevelStr (w : ℚ) : String :=
  if w ≤ 0.2 then excellentMsg
  else if w ≤ 0.35 then goodMsg
  else if w ≤ 0.5 then needsWorkMsg
  else hardMsg

/-- Round-to-nearest integer with ties to even, on ℚ: the rounding of an
exact significand used by IEEE-754 binary64 arithmetic. -/
def rne (q : ℚ) : ℤ :=
  if q - ⌊q⌋ < 1 / 2 then ⌊q⌋
  else if 1 / 2 < q - ⌊q⌋ then ⌊q⌋ + 1
  else if ⌊q⌋ % 2 = 0 then ⌊q⌋ else ⌊q⌋ + 1

/-- The binade exponent of a non-zero rational: the unique `e` with
`2 ^ e ≤ |x| < 2 ^ (e + 1)`. -/
def flExp (x : ℚ) : ℤ := Int.log 2 |x|

/-- `fl`: round an exact rational to the nearest IEEE-754 binary64 value
(53-bit significand, round to nearest, ties to even) — the result of a
correctly rounded Python float operation whose exact value is `x`.  The
exponent range is modelled as unbounded: overflow and subnormal rounding
would only matter beyond `10^308` / below `10^-308`, far outside the
values this program produces. -/
def flRound (x : ℚ) : ℚ :=
  if x = 0 then 0
  else (rne (x * 2 ^ (52 - flExp x)) : ℚ) * 2 ^ (flExp x - 52)

/-- The numeric score `int(max(0, 100 * (1 - w)))`
(`french_voice_tutor_plus.py:551`), with the double-precision arithmetic
made explicit: `w` is the correctly rounded binary64 quotient produced by
`_wer` (`flRound` of the exact ratio), and the subtraction `1 - w` and
the product `100 * (...)` are each correctly rounded binary64 operations.
`int()` truncates toward zero; the argument is non-negative thanks to the
`max` (an exact comparison), so the truncation is the floor. -/
def pronScore (w : ℚ) : ℤ :=
  Int.floor (max 0 (flRound (100 * flRound (1 - flRound w))))

/-!
## Leitner scheduling (`french_voice_tutor_plus.py:164-170`)
-/

/-- The dictionary `BOX_DELAYS_DAYS = {1: 1, 2: 2, 3: 4, 4: 7, 5: 15}`. -/
def boxDelaysDays (b : Int) : Option Nat :=
  if b = 1 then some 1
  else if b = 2 then some 2
  else if b = 3 then some 4
  else if b = 4 then some 7
  else if b = 5 then some 15
  else none

/-- The clamp `max(1, min(5, box))` applied before the table lookup. -/
def clampBox (box : Int) : Int :=
  max 1 (min 5 box)

/-- `_next_due(box, now)`: `now + timedelta(days=BOX_DELAYS_DAYS.get(max(1,
min(5, box)), 1))`, with time in seconds (one day is `86400` seconds).
The `.get(…, 1)` default of the Python code is `Option.getD … 1`. -/
def nextDueT (box : Int) (now : Nat) : Nat :=
  now + 86400 * (boxDelaysDays (clampBox box)).getD 1

/-- Modelled from the spec (for the refinement claim about `_next_due`):
the delay table `delay_days = {1: 1, 2: 2, 3: 4, 4: 7, 5: 15}` as written
in the specification, total on the clamped range `[1, 5]`. -/
def specDelayDays (b : Int) : Nat :=
  if b = 1 then 1
  else if b = 2 then 2
  else if b = 3 then 4
  else if b = 4 then 7
  else 15

/-!
## Tokenisation ignores surrounding non-word characters

`.strip()` in `answer_quiz` only removes whitespace at the two ends of the
answer, and whitespace is never part of a word token, so the token
sequence is unchanged.
-/

theorem isPySpace_not_word (c : Char) (h : isPySpace c = true) : isWordChar c = false := by
  simp only [isPySpace, Bool.or_eq_true, decide_eq_true_eq] at h
  simp only [isWordChar, Bool.or_eq_true, Bool.and_eq_true, decide_eq_true_eq]
  rw [Bool.eq_false_iff]
  intro hw
  simp only [Bool.or_eq_true, Bool.and_eq_true, decide_eq_true_eq] at hw
  omega

theorem tokenizeAux_nonword_nil :
    ∀ (s : List Char), (∀ c ∈ s, isWordChar c = false) →
      ∀ acc, tokenizeAux s acc = tokenizeAux [] acc := by
  intro s
  induction s with
  | nil => intro _ acc; rfl
  | cons c cs ih =>
    intro hs acc
    have hc : isWordChar c = false := hs c (List.mem_cons_self c cs)
    have hcs : ∀ x ∈ cs, isWordChar x = false := fun x hx => hs x (List.mem_cons_of_mem c hx)
    by_cases ha : acc.isEmpty
    · simp [tokenizeAux, hc, ha, ih hcs]
    · simp [tokenizeAux, hc, ha, ih hcs]

theorem tokenizeAux_append_nonword (s : List Char) (hs : ∀ c ∈ s, isWordChar c = false) :
    ∀ (l : List Char) (acc : List Char), tokenizeAux (l ++ s) acc = tokenizeAux l acc := by
  intro l
  induction l with
  | nil =>
    intro acc
    exact tokenizeAux_nonword_nil s hs acc
  | cons c cs ih =>
    intro acc
    show tokenizeAux (c :: (cs ++ s)) acc = tokenizeAux (c :: cs) acc
    by_cases hc : isWordChar c
    · simp [tokenizeAux, hc, ih]
    · by_cases ha : acc.isEmpty <;> simp [tokenizeAux, hc, ha, ih]

theorem tokenizeL_dropWhile_space (l : List Char) :
    tokenizeL (l.dropWhile isPySpace) = tokenizeL l := by
  unfold tokenizeL
  induction l with
  | nil => rfl
  | cons c cs ih =>
    by_cases hc : isPySpace c
    · have hw : isWordChar c = false := isPySpace_not_word c hc
      rw [List.dropWhile_cons_of_pos hc]
      rw [ih]
      show tokenizeAux cs [] = tokenizeAux (c :: cs) []
      simp [tokenizeAux, hw]
    · rw [List.dropWhile_cons_of_neg hc]

theorem tokenizeL_stripWs (l : List Char) : tokenizeL (stripWsL l) = tokenizeL l := by
  have h1 : tokenizeL (l.dropWhile isPySpace) = tokenizeL l := tokenizeL_dropWhile_space l
  set u := l.dropWhile isPySpace with hu
  have hsplit : u = stripWsL l ++ ((u.reverse.takeWhile isPySpace).reverse) := by
    have : u.reverse = u.reverse.takeWhile isPySpace ++ u.reverse.dropWhile isPySpace :=
      (List.takeWhile_append_dropWhile isPySpace u.reverse).symm
    have h2 := congrArg List.reverse this
    rw [List.reverse_reverse, List.reverse_append] at h2
    exact h2
  have htail : ∀ c ∈ (u.reverse.takeWhile isPySpace).reverse, isWordChar c = false := by
    intro c hc
    rw [List.mem_reverse] at hc
    exact isPySpace_not_word c (List.mem_takeWhile_imp hc)
  calc tokenizeL (stripWsL l)
      = tokenizeL (stripWsL l ++ (u.reverse.takeWhile isPySpace).reverse) :=
        (tokenizeAux_append_nonword _ htail (stripWsL l) []).symm
    _ = tokenizeL u := by rw [← hsplit]
    _ = tokenizeL l := h1

/-!
## String-level wrappers
-/

/-- `.lower()` on a `String`. -/
def lowerS (s : String) : String := String.mk (lowerL s.data)

/-- `.upper()` on a `String`. -/
def upperS (s : String) : String := String.mk (s.data.map toUpperPy)

/-- `.strip()` on a `String`. -/
def pyStripS (s : String) : String := String.mk (stripWsL s.data)

/-!
## Tutor state and tools (`FrenchTutorPlus`)

The mutable attributes of the agent object become an explicit state
record.  Persistence (`_save_progress`) and export (`_maybe_auto_export`)
only write the state out and never change it, so they are identities in
this model and are omitted; `random.shuffle` and `random.choice` are
modelled by explicit parameters supplying the permutation / the choice.
-/

/-- One history entry `{t, ok, input}` appended by `answer_quiz`. -/
structure HistEntry where
  t : Nat
  ok : Bool
  input : String
deriving DecidableEq

/-- A vocab item `{word, translation, example, box, next_due, history}`.
`exampleText` is the `example` field (renamed: `example` is a Lean
keyword).  `box` is an unbounded Python integer.  `nextDue` is `some t`
when the stored string parses to time `t` and `none` when it is absent or
malformed. -/
structure VocabItem where
  word : String
  translation : String
  exampleText : String
  box : Int
  nextDue : Option Nat
  history : List HistEntry
deriving DecidableEq

/-- The tutor's mutable attributes. -/
structure TutorState where
  level : String
  mode : String
  topic : String
  vocab : List VocabItem
  quizQueue : List Nat
  quizCurrent : Option Nat
  quizDirection : String
  pronTarget : Option String
deriving DecidableEq

/-- Out-of-range reads of the vocab list never happen on the paths we
verify (every queued index is in range); `getD` with this default keeps
the model total. -/
def dfltItem : VocabItem :=
  { word := "", translation := "", exampleText := "", box := 1, nextDue := none,
    history := [] }

def noActiveMsg : String := "Pas de question en cours. Dis \x27start quiz\x27 pour commencer."

def finishedMsg : String := "Quiz terminé, bravo ! On révisera encore plus tard."

def noVocabMsg : String := "Tu n’as pas encore de vocabulaire. Ajoute quelques mots d’abord."

/-- The due time used by `_due_indices`: the parsed `next_due`, falling
back to the epoch both when the field is absent (the `.get` default
string) and when parsing raises (the `except` branch),
`french_voice_tutor_plus.py:421-431`. -/
def dueTime (it : VocabItem) : Nat := it.nextDue.getD 0

/-- `_due_indices(now)`: indices of the items whose due time has passed,
in increasing order. -/
def dueIndices (s : TutorState) (now : Nat) : List Nat :=
  (List.range s.vocab.length).filter (fun i => dueTime (s.vocab.getD i dfltItem) ≤ now)

/-- `next_question` (`french_voice_tutor_plus.py:453-464`). -/
def nextQuestion (s : TutorState) : TutorState × String :=
  match s.quizQueue with
  | [] => ({ s with quizCurrent := none }, finishedMsg)
  | i :: rest =>
    let s' := { s with quizQueue := rest, quizCurrent := some i }
    let it := s.vocab.getD i dfltItem
    if s.quizDirection = "en2fr" then
      (s', "Traduction en français: “" ++ it.translation ++ "”.")
    else
      (s', "Traduction en anglais: “" ++ it.word ++ "”.")

/-- The grading predicate of `answer_quiz`
(`french_voice_tutor_plus.py:472-485`): normalise the gold side and the
answer, take the token-level distance, and compare the ratio with `0.34`. -/
def answerAccepts (s : TutorState) (idx : Nat) (ua : String) : Bool :=
  let it := s.vocab.getD idx dfltItem
  let gold := if s.quizDirection = "en2fr" then lowerL (stripAccentsL it.word.data)
              else lowerL (stripAccentsL it.translation.data)
  let ans := stripWsL (lowerL (stripAccentsL ua.data))
  let dist := pyLev (tokenizeL gold) (tokenizeL ans)
  let maxLen := max 1 (tokenizeL gold).length
  decide ((dist : ℚ) / (maxLen : ℚ) ≤ 0.34)

/-- The Leitner update of `answer_quiz` (`french_voice_tutor_plus.py:
488-498`): on accept, `box ← min(5, box + 1)`; on reject, `box ← 1`; in
both branches a history entry is appended and `next_due` is recomputed
from the written box. -/
def gradeItem (it : VocabItem) (ok : Bool) (ua : String) (now : Nat) : VocabItem :=
  if ok then
    { it with box := min 5 (it.box + 1),
              history := it.history ++ [⟨now, true, ua⟩],
              nextDue := some (nextDueT (min 5 (it.box + 1)) now) }
  else
    { it with box := 1,
              history := it.history ++ [⟨now, false, ua⟩],
              nextDue := some (nextDueT 1 now) }

/-- `answer_quiz` (`french_voice_tutor_plus.py:466-505`). -/
def answerQuiz (s : TutorState) (ua : String) (now : Nat) : TutorState × String :=
  match s.quizCurrent with
  | none => (s, noActiveMsg)
  | some idx =>
    let it := s.vocab.getD idx dfltItem
    let showGold := if s.quizDirection = "en2fr" then it.word else it.translation
    let ok := answerAccepts s idx ua
    let verdict :=
      if ok then "✅ Bien joué ! Réponse attendue: “" ++ showGold ++ "”."
      else "❌ Presque. La bonne réponse est: “" ++ showGold ++ "”."
    let s1 := { s with vocab := s.vocab.set idx (gradeItem it ok ua now) }
    let next := nextQuestion s1
    (next.1, verdict ++ "\nProchaine: " ++ next.2)

/-- The fallback candidate list of `start_quiz`
(`french_voice_tutor_plus.py:446`): all indices, stably sorted by
ascending box. -/
def sortByBoxIdx (vocab : List VocabItem) : List Nat :=
  (List.range vocab.length).mergeSort
    (fun i j => decide ((vocab.getD i dfltItem).box ≤ (vocab.getD j dfltItem).box))

/-- `start_quiz` (`french_voice_tutor_plus.py:433-451`); `shuffle` stands
for `random.shuffle` (an arbitrary caller-supplied permutation). -/
def startQuiz (s : TutorState) (count : Int) (direction : String) (now : Nat)
    (shuffle : List Nat → List Nat) : TutorState × String :=
  if s.vocab.isEmpty then (s, noVocabMsg)
  else
    let dir := if direction = "" then "en2fr" else pyStripS (lowerS direction)
    let s0 := { s with quizDirection := dir }
    let due0 := dueIndices s0 now
    let due1 := if due0.isEmpty then sortByBoxIdx s0.vocab else due0
    let due2 := shuffle due1
    let s1 := { s0 with
      quizQueue := due2.take (max 1 (min count (due2.length : Int))).toNat,
      quizCurrent := none }
    nextQuestion s1

/-- `add_vocab` (`french_voice_tutor_plus.py:350-364`). -/
def addVocab (s : TutorState) (word translation : String) (ex : Option String) (now : Nat) :
    TutorState × String :=
  let item : VocabItem :=
    { word := pyStripS word, translation := pyStripS translation,
      exampleText := pyStripS (ex.getD ""),
      box := 1, nextDue := some (nextDueT 1 now), history := [] }
  ({ s with vocab := s.vocab ++ [item] },
    "Ajouté: " ++ item.word ++ " → " ++ item.translation ++ ". Première révision demain.")

def LEVELS : List String := ["A1", "A2", "B1", "B2", "C1"]

def MODES : List String := ["chat", "roleplay", "quiz", "explain", "pronounce"]

def ROLEPLAY_TOPICS : List String := ["cafe", "travel", "hotel"]

/-- `set_level` (`french_voice_tutor_plus.py:305-314`). -/
def setLevel (s : TutorState) (level : String) : TutorState × String :=
  let lvl := pyStripS (upperS level)
  if LEVELS.contains lvl then
    ({ s with level := lvl }, "Niveau réglé sur " ++ lvl ++ ". On continue !")
  else
    (s, "Niveau inconnu: " ++ level ++ ". Choisis parmi A1, A2, B1, B2, C1.")

/-- `set_mode` (`french_voice_tutor_plus.py:316-335`); the Python
truthiness test `if topic` becomes a non-empty check. -/
def setMode (s : TutorState) (mode : String) (topic : Option String) : TutorState × String :=
  let md := pyStripS (lowerS mode)
  if MODES.contains md then
    let s1 := { s with mode := md }
    let s2 :=
      match topic with
      | some tp =>
        if md = "roleplay" && tp ≠ "" then
          let tpl := pyStripS (lowerS tp)
          if ROLEPLAY_TOPICS.contains tpl then { s1 with topic := tpl } else s1
        else s1
      | none => s1
    if md = "roleplay" then (s2, "Mode roleplay activé, thème: " ++ s2.topic ++ ".")
    else if md = "pronounce" then
      (s2, "Mode prononciation activé. Dis \x27donne-moi une phrase\x27 pour commencer.")
    else if md = "quiz" then
      (s2, "Mode quiz activé. Dis \x27start quiz\x27 pour lancer un quiz vocabulaire.")
    else (s2, "Mode réglé sur " ++ md ++ ".")
  else
    (s, "Mode inconnu: " ++ mode ++ ". Choisis parmi chat, roleplay, quiz, explain, pronounce.")

/-- `give_sentence` (`french_voice_tutor_plus.py:508-516`); the phrase
chosen by `random.choice` and its topic are passed explicitly. -/
def giveSentence (s : TutorState) (chosenFr : String) (tp : String) : TutorState × String :=
  ({ s with pronTarget := some chosenFr },
    "Répète après moi: “" ++ chosenFr ++ "” (thème: " ++ tp ++ ").")

/-!
## Helper lemmas for the claims
-/

theorem werS_nonneg (ref hyp : String) : 0 ≤ werS ref hyp := by
  unfold werS
  split
  · exact le_refl 0
  · positivity

/-!
## Properties of the binary64 rounding model
-/

theorem rne_nonneg (q : ℚ) (h : 0 ≤ q) : 0 ≤ rne q := by
  have h0 : (0 : ℤ) ≤ ⌊q⌋ := Int.floor_nonneg.mpr h
  unfold rne
  split_ifs <;> omega

theorem rne_nonpos (q : ℚ) (h : q ≤ 0) : rne q ≤ 0 := by
  have hfl : (⌊q⌋ : ℚ) ≤ q := Int.floor_le q
  have h0 : ⌊q⌋ ≤ 0 := by exact_mod_cast hfl.trans h
  unfold rne
  split_ifs with h1 h2 h3
  · exact h0
  · have h4 : (⌊q⌋ : ℚ) < -(1 / 2) := by linarith
    have h5 : ⌊q⌋ < 0 := by
      have h6 : (⌊q⌋ : ℚ) < 0 := lt_of_lt_of_le h4 (by norm_num)
      exact_mod_cast h6
    omega
  · exact h0
  · have h4 : (⌊q⌋ : ℚ) ≤ -(1 / 2) := by linarith
    have h5 : ⌊q⌋ < 0 := by
      have h6 : (⌊q⌋ : ℚ) < 0 := lt_of_le_of_lt h4 (by norm_num)
      exact_mod_cast h6
    omega

theorem rne_err (q : ℚ) : |(rne q : ℚ) - q| ≤ 1 / 2 := by
  have hfl : (⌊q⌋ : ℚ) ≤ q := Int.floor_le q
  have hfl2 : q < ⌊q⌋ + 1 := Int.lt_floor_add_one q
  unfold rne
  split_ifs with h1 h2 h3 <;> rw [abs_le] <;> push_cast <;> constructor <;> linarith

theorem flRound_nonneg (x : ℚ) (h : 0 ≤ x) : 0 ≤ flRound x := by
  unfold flRound
  split_ifs with h0
  · exact le_refl 0
  · apply mul_nonneg
    · have h1 := rne_nonneg (x * 2 ^ (52 - flExp x)) (mul_nonneg h (by positivity))
      exact_mod_cast h1
    · positivity

theorem flRound_nonpos (x : ℚ) (h : x ≤ 0) : flRound x ≤ 0 := by
  unfold flRound
  split_ifs with h0
  · exact le_refl 0
  · have harg : x * 2 ^ (52 - flExp x) ≤ 0 := by
      calc x * 2 ^ (52 - flExp x) ≤ 0 * 2 ^ (52 - flExp x) :=
            mul_le_mul_of_nonneg_right h (by positivity)
        _ = 0 := by ring
    have h1 : ((rne (x * 2 ^ (52 - flExp x)) : ℤ) : ℚ) ≤ 0 := by
      exact_mod_cast rne_nonpos _ harg
    calc (rne (x * 2 ^ (52 - flExp x)) : ℚ) * 2 ^ (flExp x - 52)
        ≤ 0 * 2 ^ (flExp x - 52) := mul_le_mul_of_nonneg_right h1 (by positivity)
      _ = 0 := by ring

theorem intLog_two_eq (x : ℚ) (e : ℤ) (hx : 0 < x)
    (h1 : (2 : ℚ) ^ e ≤ x) (h2 : x < (2 : ℚ) ^ (e + 1)) : Int.log 2 x = e := by
  have ha : (2 : ℚ) ^ (Int.log 2 x) ≤ x := by
    have h := Int.zpow_log_le_self (show (1 : ℕ) < 2 by norm_num) hx
    push_cast at h
    exact h
  have hb : x < (2 : ℚ) ^ (Int.log 2 x + 1) := by
    have h := Int.lt_zpow_succ_log_self (show (1 : ℕ) < 2 by norm_num) x
    push_cast at h
    exact h
  have h3 : e < Int.log 2 x + 1 :=
    (zpow_lt_zpow_iff_right₀ (by norm_num : (1 : ℚ) < 2)).mp (lt_of_le_of_lt h1 hb)
  have h4 : Int.log 2 x < e + 1 :=
    (zpow_lt_zpow_iff_right₀ (by norm_num : (1 : ℚ) < 2)).mp (lt_of_le_of_lt ha h2)
  omega

theorem flExp_of_bounds (x : ℚ) (e : ℤ) (hx : 0 < x)
    (h1 : (2 : ℚ) ^ e ≤ x) (h2 : x < (2 : ℚ) ^ (e + 1)) : flExp x = e := by
  unfold flExp
  rw [abs_of_pos hx]
  exact intLog_two_eq x e hx h1 h2

theorem flRound_eval (x : ℚ) (e : ℤ) (hx : 0 < x)
    (h1 : (2 : ℚ) ^ e ≤ x) (h2 : x < (2 : ℚ) ^ (e + 1)) :
    flRound x = (rne (x * 2 ^ (52 - e)) : ℚ) * 2 ^ (e - 52) := by
  unfold flRound
  rw [if_neg (ne_of_gt hx), flExp_of_bounds x e hx h1 h2]

theorem flRound_err (x : ℚ) (hx : 0 < x) : |flRound x - x| ≤ x / 2 ^ 53 := by
  set e := flExp x with he
  have h2e : (2 : ℚ) ^ e ≤ x := by
    rw [he]
    unfold flExp
    rw [abs_of_pos hx]
    have h := Int.zpow_log_le_self (show (1 : ℕ) < 2 by norm_num) hx
    push_cast at h
    exact h
  have hxy : x * 2 ^ (52 - e) * 2 ^ (e - 52) = x := by
    rw [mul_assoc, ← zpow_add₀ (by norm_num : (2 : ℚ) ≠ 0),
      show (52 - e + (e - 52) : ℤ) = 0 by ring]
    simp
  have key : flRound x - x
      = ((rne (x * 2 ^ (52 - e)) : ℚ) - x * 2 ^ (52 - e)) * 2 ^ (e - 52) := by
    unfold flRound
    rw [if_neg (ne_of_gt hx), ← he, sub_mul, hxy]
  rw [key, abs_mul, abs_of_pos (show (0 : ℚ) < 2 ^ (e - 52) by positivity)]
  have h1 := rne_err (x * 2 ^ (52 - e))
  calc |(rne (x * 2 ^ (52 - e)) : ℚ) - x * 2 ^ (52 - e)| * 2 ^ (e - 52)
      ≤ 1 / 2 * 2 ^ (e - 52) := mul_le_mul_of_nonneg_right h1 (by positivity)
    _ = 2 ^ (e - 53) := by
        rw [show (1 / 2 : ℚ) = 2 ^ (-1 : ℤ) by norm_num,
          ← zpow_add₀ (by norm_num : (2 : ℚ) ≠ 0)]
        congr 1
        ring
    _ ≤ x * 2 ^ (-53 : ℤ) := by
        rw [show (e - 53 : ℤ) = e + -53 by ring, zpow_add₀ (by norm_num : (2 : ℚ) ≠ 0)]
        exact mul_le_mul_of_nonneg_right h2e (by positivity)
    _ = x / 2 ^ 53 := by
        rw [zpow_neg]
        norm_num
        ring

theorem pronScore_le_100 (w : ℚ) (hw : 0 ≤ w) : pronScore w ≤ 100 := by
  unfold pronScore
  have hwfl : 0 ≤ flRound w := flRound_nonneg w hw
  set u := 1 - flRound w with hu
  by_cases hup : 0 < u
  · have hu1 : u ≤ 1 := by rw [hu]; linarith
    have hserr := abs_le.mp (flRound_err u hup)
    have hs_ub : flRound u ≤ 1 + 1 / 2 ^ 53 := by nlinarith [hserr.2, hu1, hup]
    have hs_pos : 0 < flRound u := by
      nlinarith [hserr.1, mul_pos hup (show (0 : ℚ) < 1 - 1 / 2 ^ 53 by norm_num)]
    have hv_pos : 0 < 100 * flRound u := by linarith
    have hterr := abs_le.mp (flRound_err _ hv_pos)
    have ht_ub : flRound (100 * flRound u) < 101 := by nlinarith [hterr.2, hs_ub]
    have hmax : max (0 : ℚ) (flRound (100 * flRound u)) < 101 := max_lt (by norm_num) ht_ub
    have hfloor : ⌊max (0 : ℚ) (flRound (100 * flRound u))⌋ < 101 :=
      Int.floor_lt.mpr (by exact_mod_cast hmax)
    omega
  · push_neg at hup
    have hs : flRound u ≤ 0 := flRound_nonpos u hup
    have hv : 100 * flRound u ≤ 0 := by linarith
    have ht : flRound (100 * flRound u) ≤ 0 := flRound_nonpos _ hv
    rw [max_eq_left ht]
    norm_num

theorem rne_eval_lt (q : ℚ) (n : ℤ) (h1 : (n : ℚ) ≤ q) (h2 : q < (n : ℚ) + 1 / 2) :
    rne q = n := by
  have hfloor : ⌊q⌋ = n := Int.floor_eq_iff.mpr ⟨h1, by push_cast; linarith⟩
  unfold rne
  rw [hfloor, if_pos (by push_cast; linarith)]

theorem rne_eval_gt (q : ℚ) (n : ℤ) (h1 : (n : ℚ) + 1 / 2 < q) (h2 : q < (n : ℚ) + 1) :
    rne q = n + 1 := by
  have hfloor : ⌊q⌋ = n :=
    Int.floor_eq_iff.mpr ⟨by push_cast; linarith, by push_cast; linarith⟩
  unfold rne
  rw [hfloor, if_neg (by push_cast; linarith), if_pos (by push_cast; linarith)]

theorem rne_eval_tie_odd (q : ℚ) (n : ℤ) (hq : q = (n : ℚ) + 1 / 2) (hodd : n % 2 = 1) :
    rne q = n + 1 := by
  have hfloor : ⌊q⌋ = n :=
    Int.floor_eq_iff.mpr ⟨by rw [hq]; push_cast; linarith, by rw [hq]; push_cast; linarith⟩
  unfold rne
  rw [hfloor, hq, if_neg (by push_cast; linarith), if_neg (by push_cast; linarith),
    if_neg (by omega)]

theorem nextQuestion_vocab (t : TutorState) : (nextQuestion t).1.vocab = t.vocab := by
  unfold nextQuestion
  cases h : t.quizQueue with
  | nil => rfl
  | cons i rest => by_cases hd : t.quizDirection = "en2fr" <;> simp [hd]

theorem answerQuiz_vocab (s : TutorState) (idx : Nat) (ua : String) (now : Nat)
    (hcur : s.quizCurrent = some idx) :
    (answerQuiz s ua now).1.vocab
      = s.vocab.set idx
          (gradeItem (s.vocab.getD idx dfltItem) (answerAccepts s idx ua) ua now) := by
  unfold answerQuiz
  rw [hcur]
  simp only []
  rw [nextQuestion_vocab]

theorem ratio_le_threshold_iff (d m : Nat) (hm : 1 ≤ m) :
    ((d : ℚ) / (m : ℚ) ≤ 0.34) ↔ 100 * d ≤ 34 * m := by
  have hm0 : (0 : ℚ) < (m : ℚ) := by exact_mod_cast hm
  rw [div_le_iff₀ hm0, show (0.34 : ℚ) = 34 / 100 by norm_num, div_mul_eq_mul_div,
    le_div_iff₀ (by norm_num : (0 : ℚ) < 100)]
  constructor
  · intro h
    have h2 : (100 : ℚ) * d ≤ 34 * m := by linarith
    exact_mod_cast h2
  · intro h
    have h2 : (100 : ℚ) * d ≤ 34 * m := by exact_mod_cast h
    linarith

theorem answerAccepts_iff_ratio (s : TutorState) (idx : Nat) (ua : String) :
    answerAccepts s idx ua = true ↔
      ((levWF (tokenizeL (lowerL (stripAccentsL
            (if s.quizDirection = "en2fr" then (s.vocab.getD idx dfltItem).word
             else (s.vocab.getD idx dfltItem).translation).data)))
          (tokenizeL (lowerL (stripAccentsL ua.data))) : ℚ)
        / (((max 1 (tokenizeL (lowerL (stripAccentsL
            (if s.quizDirection = "en2fr" then (s.vocab.getD idx dfltItem).word
             else (s.vocab.getD idx dfltItem).translation).data))).length : ℕ) : ℚ)) ≤ 0.34) := by
  by_cases hd : s.quizDirection = "en2fr" <;>
    simp only [answerAccepts, hd, if_true, if_false, decide_eq_true_eq,
      tokenizeL_stripWs, pyLev_eq_levWF]

/-!
## Claims
-/

/-- C3: for every integer `box` (including out-of-range values) and every
timestamp `now`, `_next_due(box, now)` is `now` plus
`delay_days[clamp(box, 1, 5)]` days, with `delay_days = {1:1, 2:2, 3:4,
4:7, 5:15}`; in particular box `0` clamps to `1` (one day) and box `9`
clamps to `5` (fifteen days). -/
theorem C3_due_date_determinism (box : Int) (now : Nat) :
    nextDueT box now = now + 86400 * specDelayDays (clampBox box)
    ∧ clampBox 0 = 1 ∧ clampBox 9 = 5
    ∧ nextDueT 0 now = now + 86400 * 1
    ∧ nextDueT 9 now = now + 86400 * 15 := by
  have h : clampBox box = 1 ∨ clampBox box = 2 ∨ clampBox box = 3 ∨ clampBox box = 4
      ∨ clampBox box = 5 := by
    unfold clampBox
    omega
  refine ⟨?_, by decide, by decide, ?_, ?_⟩
  · rcases h with h | h | h | h | h <;> simp [nextDueT, h, boxDelaysDays, specDelayDays]
  · simp [nextDueT, clampBox, boxDelaysDays]
  · simp [nextDueT, clampBox, boxDelaysDays]

/-- C9: an item whose stored `next_due` is absent or fails to parse is
treated as due at the epoch, hence always appears in `_due_indices`
(timestamps are non-negative), instead of raising. -/
theorem C9_malformed_timestamp_due (s : TutorState) (now : Nat) (i : Nat)
    (hi : i < s.vocab.length)
    (hmal : (s.vocab.getD i dfltItem).nextDue = none) :
    i ∈ dueIndices s now := by
  unfold dueIndices
  rw [List.mem_filter]
  refine ⟨List.mem_range.mpr hi, ?_⟩
  show decide (dueTime (s.vocab.getD i dfltItem) ≤ now) = true
  rw [dueTime, hmal]
  simp

/-- C8: with no outstanding question (`current = None`), `answer_quiz`
returns the fixed "no active question" message and the state is returned
unchanged; on an empty queue `next_question` clears `current` and returns
the terminal message, and after grading with an empty queue `current` is
cleared, so the following `answer_quiz` is exactly that no-op. -/
theorem C8_no_active_question :
    (∀ (s : TutorState) (ua : String) (now : Nat),
        s.quizCurrent = none → answerQuiz s ua now = (s, noActiveMsg))
    ∧ (∀ s : TutorState, s.quizQueue = [] →
        nextQuestion s = ({ s with quizCurrent := none }, finishedMsg))
    ∧ (∀ (s : TutorState) (ua : String) (now : Nat),
        s.quizQueue = [] → ((answerQuiz s ua now).1).quizCurrent = none) := by
  refine ⟨?_, ?_, ?_⟩
  · intro s ua now h
    unfold answerQuiz
    rw [h]
  · intro s h
    unfold nextQuestion
    rw [h]
  · intro s ua now h
    cases hcur : s.quizCurrent with
    | none =>
      unfold answerQuiz
      rw [hcur]
      exact hcur
    | some idx =>
      unfold answerQuiz
      rw [hcur]
      simp only []
      unfold nextQuestion
      simp [h]

def emptyRef : String := ""

def oneWordHyp : String := "a"

/-- C5 counterexample: `_wer("", "a")` is `0.0` although the normalized
tokenizations (`[]` and `["a"]`) differ, so "`wer == 0` iff tokenized ref
equals tokenized hyp" fails as stated on an empty reference. -/
theorem C5_counterexample :
    werS emptyRef oneWordHyp = 0 ∧ normTokensS emptyRef ≠ normTokensS oneWordHyp := by
  constructor
  · rfl
  · decide

/-- C5 (amended): `word_error_rate` is non-negative; it is `0.0` whenever
the reference tokenizes to the empty sequence; and when the reference
tokenizes to a non-empty sequence it is `0` iff the normalized
tokenizations of `ref` and `hyp` are equal. -/
theorem C5_wer_bounds (ref hyp : String) :
    0 ≤ werS ref hyp
    ∧ (normTokensS ref = [] → werS ref hyp = 0)
    ∧ (normTokensS ref ≠ [] →
        (werS ref hyp = 0 ↔ normTokensS ref = normTokensS hyp)) := by
  refine ⟨werS_nonneg ref hyp, ?_, ?_⟩
  · intro h
    unfold werS
    rw [if_pos (show (normTokensS ref).isEmpty = true by rw [h]; rfl)]
  · intro h
    unfold werS
    rw [if_neg (show ¬ (normTokensS ref).isEmpty = true by simp [List.isEmpty_iff, h])]
    have hlen : 0 < (normTokensS ref).length := List.length_pos.mpr h
    have hlen0 : ((normTokensS ref).length : ℚ) ≠ 0 := by
      have := Nat.pos_iff_ne_zero.mp hlen
      exact_mod_cast this
    constructor
    · intro h0
      rcases div_eq_zero_iff.mp h0 with h1 | h1
      · have h2 : pyLev (normTokensS ref) (normTokensS hyp) = 0 := by exact_mod_cast h1
        exact (pyLev_eq_zero_iff _ _).mp h2
      · exact absurd h1 hlen0
    · intro heq
      have h2 : pyLev (normTokensS ref) (normTokensS hyp) = 0 := (pyLev_eq_zero_iff _ _).mpr heq
      rw [h2]
      simp

/-- C6: the pronunciation tier is chosen by the first matching threshold,
inclusive on the lower tier: `wer ≤ 0.20` is "excellent", `0.20 < wer ≤
0.35` is "good", `0.35 < wer ≤ 0.50` is "needs work", `wer > 0.50` is
"hard to understand"; `wer = 0.20` exactly is "excellent". -/
theorem C6_tier_selection (target heard : String) :
    (pronLevelStr (werS target heard) = excellentMsg ↔ werS target heard ≤ 0.2)
    ∧ (pronLevelStr (werS target heard) = goodMsg ↔
        0.2 < werS target heard ∧ werS target heard ≤ 0.35)
    ∧ (pronLevelStr (werS target heard) = needsWorkMsg ↔
        0.35 < werS target heard ∧ werS target heard ≤ 0.5)
    ∧ (pronLevelStr (werS target heard) = hardMsg ↔ 0.5 < werS target heard)
    ∧ (werS target heard = 0.2 → pronLevelStr (werS target heard) = excellentMsg) := by
  set w := werS target heard with hw
  have hEG : excellentMsg ≠ goodMsg := by decide
  have hEN : excellentMsg ≠ needsWorkMsg := by decide
  have hEH : excellentMsg ≠ hardMsg := by decide
  have hGN : goodMsg ≠ needsWorkMsg := by decide
  have hGH : goodMsg ≠ hardMsg := by decide
  have hNH : needsWorkMsg ≠ hardMsg := by decide
  unfold pronLevelStr
  by_cases h1 : w ≤ 0.2
  · rw [if_pos h1]
    refine ⟨iff_of_true rfl h1, ?_, ?_, ?_, fun _ => rfl⟩
    · exact iff_of_false hEG (by intro hc; linarith [hc.1])
    · exact iff_of_false hEN (by intro hc; linarith [hc.1])
    · exact iff_of_false hEH (by intro hc; linarith)
  · rw [if_neg h1]
    push_neg at h1
    by_cases h2 : w ≤ 0.35
    · rw [if_pos h2]
      refine ⟨iff_of_false (Ne.symm hEG) (by intro hc; linarith),
        iff_of_true rfl ⟨h1, h2⟩,
        iff_of_false hGN (by intro hc; linarith [hc.1]),
        iff_of_false hGH (by intro hc; linarith),
        ?_⟩
      intro he
      rw [he] at h1
      exact absurd h1 (lt_irrefl _)
    · rw [if_neg h2]
      push_neg at h2
      by_cases h3 : w ≤ 0.5
      · rw [if_pos h3]
        refine ⟨iff_of_false (Ne.symm hEN) (by intro hc; linarith),
          iff_of_false (Ne.symm hGN) (by intro hc; linarith [hc.2]),
          iff_of_true rfl ⟨h2, h3⟩,
          iff_of_false hNH (by intro hc; linarith),
          ?_⟩
        intro he
        rw [he] at h1
        exact absurd h1 (lt_irrefl _)
      · rw [if_neg h3]
        push_neg at h3
        refine ⟨iff_of_false (Ne.symm hEH) (by intro hc; linarith),
          iff_of_false (Ne.symm hGH) (by intro hc; linarith [hc.2]),
          iff_of_false (Ne.symm hNH) (by intro hc; linarith [hc.2]),
          iff_of_true rfl h3,
          ?_⟩
        intro he
        rw [he] at h1
        exact absurd h1 (lt_irrefl _)

def pronRefStr : String := "un deux trois"

def pronHypStr : String := "un deux quatre"

theorem werS_pron_example : werS pronRefStr pronHypStr = 1 / 3 := by
  have hne : ¬ (normTokensS pronRefStr).isEmpty = true := by decide
  have hlev : pyLev (normTokensS pronRefStr) (normTokensS pronHypStr) = 1 := by decide
  have hlen : (normTokensS pronRefStr).length = 3 := by decide
  unfold werS
  rw [if_neg hne, hlev, hlen]
  norm_num

theorem flRound_one_third :
    flRound (1 / 3 : ℚ) = 6004799503160661 / 18014398509481984 := by
  rw [flRound_eval (1 / 3) (-2) (by norm_num) (by norm_num) (by norm_num)]
  rw [show (1 / 3 : ℚ) * 2 ^ (52 - (-2 : ℤ)) = 18014398509481984 / 3 by norm_num]
  rw [rne_eval_lt (18014398509481984 / 3) 6004799503160661 (by push_cast; norm_num)
    (by push_cast; norm_num)]
  push_cast
  norm_num

theorem flRound_one_third_diff :
    flRound (12009599006321323 / 18014398509481984 : ℚ)
      = 3002399751580331 / 4503599627370496 := by
  rw [flRound_eval _ (-1) (by norm_num) (by norm_num) (by norm_num)]
  rw [rne_eval_tie_odd _ 6004799503160661 (by push_cast; norm_num) (by norm_num)]
  push_cast
  norm_num

theorem flRound_one_third_prod :
    flRound (75059993789508275 / 1125899906842624 : ℚ)
      = 4691249611844267 / 70368744177664 := by
  rw [flRound_eval _ 6 (by norm_num) (by norm_num) (by norm_num)]
  rw [rne_eval_lt _ 4691249611844267 (by push_cast; norm_num) (by push_cast; norm_num)]
  push_cast
  norm_num

/-- The score at `wer = 1/3`: in binary64, `1 - 1/3` rounds up (a tie
broken to even) to `0.6666666666666667` and `100 * …` is
`66.66666666666667`, truncated by `int()` to `66` — matching Python. -/
theorem pronScore_one_third : pronScore (1 / 3 : ℚ) = 66 := by
  unfold pronScore
  rw [flRound_one_third]
  rw [show (1 : ℚ) - 6004799503160661 / 18014398509481984
      = 12009599006321323 / 18014398509481984 by norm_num]
  rw [flRound_one_third_diff]
  rw [show (100 : ℚ) * (3002399751580331 / 4503599627370496)
      = 75059993789508275 / 1125899906842624 by norm_num]
  rw [flRound_one_third_prod]
  rw [max_eq_right (by norm_num : (0 : ℚ) ≤ 4691249611844267 / 70368744177664)]
  norm_num

theorem flRound_four_fifths :
    flRound (4 / 5 : ℚ) = 3602879701896397 / 4503599627370496 := by
  rw [flRound_eval _ (-1) (by norm_num) (by norm_num) (by norm_num)]
  rw [show (4 / 5 : ℚ) * 2 ^ (52 - (-1 : ℤ)) = 36028797018963968 / 5 by norm_num]
  rw [rne_eval_gt (36028797018963968 / 5) 7205759403792793 (by push_cast; norm_num)
    (by push_cast; norm_num)]
  push_cast
  norm_num

theorem flRound_four_fifths_diff :
    flRound (900719925474099 / 4503599627370496 : ℚ)
      = 900719925474099 / 4503599627370496 := by
  rw [flRound_eval _ (-3) (by norm_num) (by norm_num) (by norm_num)]
  rw [rne_eval_lt _ 7205759403792792 (by push_cast; norm_num) (by push_cast; norm_num)]
  push_cast
  norm_num

theorem flRound_four_fifths_prod :
    flRound (22517998136852475 / 1125899906842624 : ℚ)
      = 5629499534213119 / 281474976710656 := by
  rw [flRound_eval _ 4 (by norm_num) (by norm_num) (by norm_num)]
  rw [rne_eval_gt _ 5629499534213118 (by push_cast; norm_num) (by push_cast; norm_num)]
  push_cast
  norm_num

theorem pronScore_four_fifths : pronScore (4 / 5 : ℚ) = 19 := by
  unfold pronScore
  rw [flRound_four_fifths]
  rw [show (1 : ℚ) - 3602879701896397 / 4503599627370496
      = 900719925474099 / 4503599627370496 by norm_num]
  rw [flRound_four_fifths_diff]
  rw [show (100 : ℚ) * (900719925474099 / 4503599627370496)
      = 22517998136852475 / 1125899906842624 by norm_num]
  rw [flRound_four_fifths_prod]
  rw [max_eq_right (by norm_num : (0 : ℚ) ≤ 5629499534213119 / 281474976710656)]
  norm_num

/-- Validation of the binary64 model at `wer = 4/5`: the double product
`100 * (1 - 0.8)` is `19.999999999999996`, so the program scores `19` —
one below the floor `20` of the exact value.  The float rounding in
`pronScore` is observable program behaviour, not a modelling choice. -/
theorem pronScore_float_vs_exact :
    pronScore (4 / 5 : ℚ) = 19
    ∧ Int.floor (max 0 (100 * (1 - (4 / 5 : ℚ)))) = 20 := by
  refine ⟨pronScore_four_fifths, ?_⟩
  rw [max_eq_right (by norm_num : (0 : ℚ) ≤ 100 * (1 - (4 / 5 : ℚ)))]
  norm_num

/-- C7 counterexample: at `wer = 1/3` (gold "un deux trois" vs heard
"un deux quatre") the code's score — the `int()` truncation of the
double-precision product `100 * (1 - 1/3) = 66.66666666666667` — is `66`,
while the claimed `round(100 × max(0, 1 − wer))` is `67`: the reported
score is not the rounded value. -/
theorem C7_counterexample :
    pronScore (werS pronRefStr pronHypStr)
        ≠ round (100 * max 0 (1 - werS pronRefStr pronHypStr))
    ∧ pronScore (werS pronRefStr pronHypStr) = 66
    ∧ round (100 * max 0 (1 - werS pronRefStr pronHypStr)) = 67 := by
  rw [werS_pron_example]
  have hr : round (100 * max (0 : ℚ) (1 - 1 / 3)) = 67 := by
    rw [max_eq_right (by norm_num : (0 : ℚ) ≤ 1 - 1 / 3), round_eq]
    norm_num
  refine ⟨?_, pronScore_one_third, hr⟩
  rw [pronScore_one_third, hr]
  decide

/-- C7 (amended): the numeric score is Python's `int()` truncation — a
floor, the argument being clamped non-negative — of the double-precision
evaluation of `100 * (1 - wer)`, each operation correctly rounded to
binary64 (`flRound`); it is not the rounding to nearest of the exact
value (see the counterexample); it is non-negative and never exceeds
`100`. -/
theorem C7_score_floor (target heard : String) :
    pronScore (werS target heard)
        = Int.floor (max 0 (flRound (100 * flRound (1 - flRound (werS target heard)))))
    ∧ 0 ≤ pronScore (werS target heard)
    ∧ pronScore (werS target heard) ≤ 100 := by
  refine ⟨rfl, ?_, pronScore_le_100 (werS target heard) (werS_nonneg target heard)⟩
  unfold pronScore
  exact Int.floor_nonneg.mpr (le_max_left _ _)

/-- C1: with an active question, the answer is accepted exactly when the
classic token-level edit distance between the accent-stripped, lowercased
gold string and the accent-stripped, lowercased answer, divided by
`max(1, token count of the gold string)`, is at most `0.34`. -/
theorem C1_grading_threshold (s : TutorState) (idx : Nat) (ua : String)
    (hcur : s.quizCurrent = some idx) :
    answerAccepts s idx ua = true ↔
      ((levWF (tokenizeL (lowerL (stripAccentsL
            (if s.quizDirection = "en2fr" then (s.vocab.getD idx dfltItem).word
             else (s.vocab.getD idx dfltItem).translation).data)))
          (tokenizeL (lowerL (stripAccentsL ua.data))) : ℚ)
        / (((max 1 (tokenizeL (lowerL (stripAccentsL
            (if s.quizDirection = "en2fr" then (s.vocab.getD idx dfltItem).word
             else (s.vocab.getD idx dfltItem).translation).data))).length : ℕ) : ℚ)) ≤ 0.34) :=
  answerAccepts_iff_ratio s idx ua

/-- C10: when the gold string normalizes to a single token, grading is an
exact-match test: the answer is accepted iff its normalized tokenization
is exactly that one token (any edit gives a ratio of at least `1`,
exceeding `0.34`). -/
theorem C10_single_token (s : TutorState) (idx : Nat) (ua : String) (tok : List Char)
    (hcur : s.quizCurrent = some idx)
    (hgold : tokenizeL (lowerL (stripAccentsL
        (if s.quizDirection = "en2fr" then (s.vocab.getD idx dfltItem).word
         else (s.vocab.getD idx dfltItem).translation).data)) = [tok]) :
    (answerAccepts s idx ua = true ↔
      tokenizeL (lowerL (stripAccentsL ua.data)) = [tok]) := by
  rw [answerAccepts_iff_ratio s idx ua, hgold]
  set aTok := tokenizeL (lowerL (stripAccentsL ua.data)) with ha
  constructor
  · intro h
    have h1 : ((levWF [tok] aTok : ℚ)) ≤ 0.34 := by simpa using h
    have h0 : levWF [tok] aTok = 0 := by
      by_contra hne
      have hge : 1 ≤ levWF [tok] aTok := Nat.one_le_iff_ne_zero.mpr hne
      have hgeq : (1 : ℚ) ≤ (levWF [tok] aTok : ℚ) := by exact_mod_cast hge
      linarith [show (0.34 : ℚ) < 1 by norm_num]
    exact ((levWF_eq_zero_iff _ _).mp h0).symm
  · intro h
    rw [h]
    have h0 : levWF [tok] [tok] = 0 := (levWF_eq_zero_iff _ _).mpr rfl
    rw [h0]
    norm_num

/-- C4: the rolling single-row dynamic program `_levenshtein` returns
exactly the classic Levenshtein edit distance with unit insertion,
deletion and substitution costs (the Wagner-Fischer corner value), a
single well-defined non-negative integer. -/
theorem C4_rolling_levenshtein {α : Type} [DecidableEq α] (a b : List α) :
    pyLev a b = levWF a b :=
  pyLev_eq_levWF a b

/-- C2: grading an item whose box satisfies the `[1, 5]` invariant sets
the box to `min(5, box + 1)` on accept (strictly increasing unless
already `5`) and to `1` on reject; the new box is in `[1, 5]` and
`next_due` is recomputed from the new box via the delay table; no other
item changes, and no other operation of the agent touches the vocabulary
(so nothing else can set `next_due`; item creation aside). -/
theorem C2_leitner_update (s : TutorState) (idx : Nat) (ua : String) (now : Nat)
    (hcur : s.quizCurrent = some idx) (hidx : idx < s.vocab.length)
    (hb1 : 1 ≤ (s.vocab.getD idx dfltItem).box) (hb5 : (s.vocab.getD idx dfltItem).box ≤ 5) :
    (answerAccepts s idx ua = true →
      ((answerQuiz s ua now).1.vocab.getD idx dfltItem).box
          = min 5 ((s.vocab.getD idx dfltItem).box + 1)
        ∧ ((s.vocab.getD idx dfltItem).box < 5 →
            (s.vocab.getD idx dfltItem).box
              < ((answerQuiz s ua now).1.vocab.getD idx dfltItem).box)
        ∧ ((s.vocab.getD idx dfltItem).box = 5 →
            ((answerQuiz s ua now).1.vocab.getD idx dfltItem).box = 5))
    ∧ (answerAccepts s idx ua = false →
        ((answerQuiz s ua now).1.vocab.getD idx dfltItem).box = 1)
    ∧ (1 ≤ ((answerQuiz s ua now).1.vocab.getD idx dfltItem).box
        ∧ ((answerQuiz s ua now).1.vocab.getD idx dfltItem).box ≤ 5
        ∧ ((answerQuiz s ua now).1.vocab.getD idx dfltItem).nextDue
            = some (nextDueT ((answerQuiz s ua now).1.vocab.getD idx dfltItem).box now))
    ∧ (∀ j, j ≠ idx →
        (answerQuiz s ua now).1.vocab.getD j dfltItem = s.vocab.getD j dfltItem)
    ∧ (∀ t : TutorState, (nextQuestion t).1.vocab = t.vocab)
    ∧ (∀ (t : TutorState) (c : Int) (d : String) (n : Nat) (sh : List Nat → List Nat),
        (startQuiz t c d n sh).1.vocab = t.vocab)
    ∧ (∀ (t : TutorState) (lv : String), (setLevel t lv).1.vocab = t.vocab)
    ∧ (∀ (t : TutorState) (md : String) (tp : Option String),
        (setMode t md tp).1.vocab = t.vocab)
    ∧ (∀ (t : TutorState) (fr tp : String), (giveSentence t fr tp).1.vocab = t.vocab) := by
  have hvoc := answerQuiz_vocab s idx ua now hcur
  have hget : (answerQuiz s ua now).1.vocab.getD idx dfltItem
      = gradeItem (s.vocab.getD idx dfltItem) (answerAccepts s idx ua) ua now := by
    rw [hvoc, List.getD_eq_getElem?_getD, List.getElem?_set_self hidx]
    rfl
  have hother : ∀ j, j ≠ idx →
      (answerQuiz s ua now).1.vocab.getD j dfltItem = s.vocab.getD j dfltItem := by
    intro j hj
    rw [hvoc, List.getD_eq_getElem?_getD, List.getElem?_set_ne (Ne.symm hj),
      List.getD_eq_getElem?_getD]
  have hbox : ((answerQuiz s ua now).1.vocab.getD idx dfltItem).box
      = if answerAccepts s idx ua then min 5 ((s.vocab.getD idx dfltItem).box + 1) else 1 := by
    rw [hget]
    unfold gradeItem
    cases answerAccepts s idx ua <;> simp
  have hdue : ((answerQuiz s ua now).1.vocab.getD idx dfltItem).nextDue
      = some (nextDueT ((answerQuiz s ua now).1.vocab.getD idx dfltItem).box now) := by
    rw [hget]
    unfold gradeItem
    cases answerAccepts s idx ua <;> simp
  have hsq : ∀ (t : TutorState) (c : Int) (d : String) (n : Nat) (sh : List Nat → List Nat),
      (startQuiz t c d n sh).1.vocab = t.vocab := by
    intro t c d n sh
    unfold startQuiz
    by_cases he : t.vocab.isEmpty
    · simp [he]
    · simp [he, nextQuestion_vocab]
  have hsl : ∀ (t : TutorState) (lv : String), (setLevel t lv).1.vocab = t.vocab := by
    intro t lv
    unfold setLevel
    by_cases h : pyStripS (upperS lv) ∈ LEVELS <;> simp [h]
  have hsm : ∀ (t : TutorState) (md : String) (tp : Option String),
      (setMode t md tp).1.vocab = t.vocab := by
    intro t md tp
    unfold setMode
    by_cases hc : MODES.contains (pyStripS (lowerS md)) = true
    · rw [if_pos hc]
      cases tp with
      | none =>
        simp only [apply_ite TutorState.vocab]
        split_ifs <;> rfl
      | some tpv =>
        simp only [apply_ite TutorState.vocab]
        split_ifs <;> rfl
    · rw [if_neg hc]
  refine ⟨?_, ?_, ⟨?_, ?_, hdue⟩, hother, nextQuestion_vocab, hsq, hsl, hsm,
    fun t fr tp => rfl⟩
  · intro hok
    rw [hbox, hok, if_pos rfl]
    refine ⟨rfl, ?_, ?_⟩ <;> intro h <;> omega
  · intro hok
    rw [hbox, hok, if_neg (by simp)]
  · rw [hbox]
    cases hok : answerAccepts s idx ua
    · rw [if_neg (by simp)]
    · rw [if_pos rfl]
      omega
  · rw [hbox]
    cases hok : answerAccepts s idx ua
    · rw [if_neg (by simp)]
      omega
    · rw [if_pos rfl]
      omega

/-!
## Concrete instances (witnesses)
-/

def chatItem : VocabItem :=
  { word := "chat", translation := "cat", exampleText := "", box := 1,
    nextDue := some 0, history := [] }

def corruptItem : VocabItem :=
  { word := "bonjour", translation := "hello", exampleText := "", box := 2,
    nextDue := none, history := [] }

def quizState : TutorState :=
  { level := "A1", mode := "quiz", topic := "cafe", vocab := [chatItem],
    quizQueue := [], quizCurrent := some 0, quizDirection := "en2fr", pronTarget := none }

def idleState : TutorState :=
  { level := "A1", mode := "chat", topic := "cafe", vocab := [chatItem],
    quizQueue := [], quizCurrent := none, quizDirection := "en2fr", pronTarget := none }

def corruptState : TutorState :=
  { level := "A1", mode := "chat", topic := "cafe", vocab := [corruptItem],
    quizQueue := [], quizCurrent := none, quizDirection := "en2fr", pronTarget := none }

def chatAnswer : String := "chat"

def chatTok : List Char := "chat".data

def tierRefStr : String := "un deux trois quatre cinq"

def tierHypStr : String := "un deux trois quatre six"

theorem werS_tier_example : werS tierRefStr tierHypStr = 0.2 := by
  have hne : ¬ (normTokensS tierRefStr).isEmpty = true := by decide
  have hlev : pyLev (normTokensS tierRefStr) (normTokensS tierHypStr) = 1 := by decide
  have hlen : (normTokensS tierRefStr).length = 5 := by decide
  unfold werS
  rw [if_neg hne, hlev, hlen]
  norm_num

theorem C1_witness :
    answerAccepts quizState 0 chatAnswer = true ↔
      ((levWF (tokenizeL (lowerL (stripAccentsL
            (if quizState.quizDirection = "en2fr" then (quizState.vocab.getD 0 dfltItem).word
             else (quizState.vocab.getD 0 dfltItem).translation).data)))
          (tokenizeL (lowerL (stripAccentsL chatAnswer.data))) : ℚ)
        / (((max 1 (tokenizeL (lowerL (stripAccentsL
            (if quizState.quizDirection = "en2fr" then (quizState.vocab.getD 0 dfltItem).word
             else (quizState.vocab.getD 0 dfltItem).translation).data))).length : ℕ) : ℚ)) ≤ 0.34) :=
  C1_grading_threshold quizState 0 chatAnswer rfl

theorem C2_witness :
    1 ≤ ((answerQuiz quizState chatAnswer 0).1.vocab.getD 0 dfltItem).box
    ∧ ((answerQuiz quizState chatAnswer 0).1.vocab.getD 0 dfltItem).box ≤ 5
    ∧ ((answerQuiz quizState chatAnswer 0).1.vocab.getD 0 dfltItem).nextDue
        = some (nextDueT ((answerQuiz quizState chatAnswer 0).1.vocab.getD 0 dfltItem).box 0) :=
  (C2_leitner_update quizState 0 chatAnswer 0 rfl (by decide) (by decide) (by decide)).2.2.1

theorem C5_witness : werS pronRefStr pronRefStr = 0 :=
  ((C5_wer_bounds pronRefStr pronRefStr).2.2 (by decide)).mpr rfl

theorem C6_witness : pronLevelStr (werS tierRefStr tierHypStr) = excellentMsg :=
  (C6_tier_selection tierRefStr tierHypStr).2.2.2.2 werS_tier_example

theorem C8_witness : answerQuiz idleState chatAnswer 0 = (idleState, noActiveMsg) :=
  C8_no_active_question.1 idleState chatAnswer 0 rfl

theorem C9_witness : 0 ∈ dueIndices corruptState 5 :=
  C9_malformed_timestamp_due corruptState 5 0 (by decide) (by decide)

theorem C10_witness :
    answerAccepts quizState 0 chatAnswer = true ↔
      tokenizeL (lowerL (stripAccentsL chatAnswer.data)) = [chatTok] :=
  C10_single_token quizState 0 chatAnswer chatTok rfl (by decide)
